import Mathlib

/-!
Verification of the message-handling pipeline of the ytdlp-discord bot
(src/main.rs) against its natural-language specification.

The Rust source is shallowly embedded as executable Lean definitions:
the two regexes are compiled by hand into structural-recursive scanners
over lists of characters, the event handlers become pure functions that
return the list of performed effects (sends, logs, task spawns, process
runs), and the runtime (message sending, filesystem, subprocess) is an
explicit environment of oracles.  Character classes are modelled over
their ASCII meaning, which is the fragment exercised by every claim.
-/

set_option autoImplicit false

/-! ### Character classes (ASCII fragment of the regex classes) -/

/-- Word character, the class `\w` of the strict URL regex. -/
def isWordChar (c : Char) : Bool := c.isAlpha || c.isDigit || c = '_'

/-- Host character, the class `[\w\-\.]` of the strict URL regex. -/
def isHostChar (c : Char) : Bool := isWordChar c || c = '-' || c = '.'

/-- Non-whitespace, the class `\S` used by both regexes. -/
def nonWs (c : Char) : Bool := !c.isWhitespace

/-! ### The broad scan `https?://\S+` (field `url_regex` in `main`) -/

/-- Splits off a leading URL scheme: the `https?://` part of both regexes.
The `s?` is greedy, so `https://` is tried before `http://`. -/
def schemeSplit (l : List Char) : Option (List Char × List Char) :=
  if l.take 8 = "https://".data then some ("https://".data, l.drop 8)
  else if l.take 7 = "http://".data then some ("http://".data, l.drop 7)
  else none

/-- Match of `https?://\S+` anchored at the start of `l`: the scheme followed
by the maximal nonempty run of non-whitespace characters. -/
def matchUrlAt (l : List Char) : Option (List Char) :=
  match schemeSplit l with
  | some (sch, rest) =>
      let body := rest.takeWhile nonWs
      if body = [] then none else some (sch ++ body)
  | none => none

/-- Leftmost match of `https?://\S+`, the embedding of
`url_regex.find(&msg.content)` in `Handler::message`. -/
def findUrl : List Char → Option (List Char)
  | [] => none
  | c :: cs =>
    match matchUrlAt (c :: cs) with
    | some m => some m
    | none => findUrl cs

/-! ### The strict check `^https?://[\w\-\.]+\.[a-zA-Z]{2,}(/\S*)?$`
(function `is_valid_url` in the source) -/

/-- Splits a character list at its last dot, returning the parts before and
after it; `none` when no dot occurs.  The part after the split never
contains a dot. -/
def lastDotSplit : List Char → Option (List Char × List Char)
  | [] => none
  | c :: cs =>
    match lastDotSplit cs with
    | some (h, t) => some (c :: h, t)
    | none => if c = '.' then some ([], cs) else none

/-- Embedding of `is_valid_url`: decides the anchored regex
`^https?://[\w\-\.]+\.[a-zA-Z]{2,}(/\S*)?$`.  After the scheme, the maximal
run of `[\w\-\.]` characters must split at its last dot into a nonempty
host part and an alphabetic top-level label of length at least two, and
whatever remains must be empty or a `/` followed by non-whitespace. -/
def is_valid_url (s : String) : Bool :=
  match schemeSplit s.data with
  | none => false
  | some (_, rest) =>
    (match lastDotSplit (rest.takeWhile isHostChar) with
     | some (h, t) => decide (h ≠ []) && decide (2 ≤ t.length) && t.all Char.isAlpha
     | none => false)
    &&
    (match rest.dropWhile isHostChar with
     | [] => true
     | d :: q => decide (d = '/') && q.all nonWs)

/-! ### URL Matcher outcome -/

/-- Outcome of the two-stage URL Matcher of the spec. -/
inductive MatchResult where
  | valid (url : String)
  | invalid
  | absent
deriving DecidableEq

/-- The composed URL Matcher: the broad scan followed by the strict check,
as inlined in `Handler::message`. -/
def urlMatcher (text : String) : MatchResult :=
  match findUrl text.data with
  | none => .absent
  | some m => if is_valid_url (String.mk m) then .valid (String.mk m) else .invalid

example : urlMatcher "hello there" = .absent := by decide
example : urlMatcher "see http://example.com/video" = .valid "http://example.com/video" := by decide
example : urlMatcher "http://bad_host" = .invalid := by decide
example : urlMatcher "http://example.com," = .invalid := by decide
example : urlMatcher "http://example.com." = .invalid := by decide
example : urlMatcher "a http://example.com/x, b" = .valid "http://example.com/x," := by decide
example : is_valid_url "https://good.example.com/path" = true := by decide
example : urlMatcher "http:// x" = .absent := by decide
example : urlMatcher "see https://a.b.cd" = .valid "https://a.b.cd" := by decide
example : is_valid_url "https://a.b2c" = false := by decide
example : is_valid_url "http://a.bc/p q" = false := by decide

/-! ### Data model: messages, configuration, download requests -/

/-- An inbound chat message, the fields of `serenity::model::channel::Message`
read by `Handler::message`: the author-is-bot flag, the optional guild
(server) identifier, the channel identifier and the text content. -/
structure Message where
  author_bot : Bool
  guild_id : Option Nat
  channel_id : Nat
  content : String

/-- The handler state built in `main` from the settings: output directory,
optional guild allow-list, optional single allowed channel, optional
cookies path.  The compiled `url_regex` is the fixed `findUrl` scanner. -/
structure Handler where
  output_dir : String
  allowed_guilds : Option (List Nat)
  allowed_channel : Option Nat
  cookies_path : Option String

/-- Embedding of `Handler::is_allowed_guild`. -/
def Handler.is_allowed_guild (h : Handler) (guild_id : Nat) : Bool :=
  match h.allowed_guilds with
  | some ids => ids.contains guild_id
  | none => true

/-- The data handed to the spawned download task in `Handler::message`. -/
structure DownloadRequest where
  url : String
  output_dir : String
  cookies_path : Option String
  channel : Nat
deriving DecidableEq

/-! ### Process boundary -/

/-- A constructed subprocess invocation: program, arguments and the two
stdio redirections set up in `download_url_with_cookies`. -/
structure Cmd where
  program : String
  args : List String
  stdout_null : Bool
  stderr_piped : Bool
deriving DecidableEq

/-- Result of attempting to run a command to completion: the spawn can fail,
the wait can fail, or the process exits with a status code and its
captured standard-error text.  A status of `0` is success. -/
inductive RunResult where
  | spawnError (e : String)
  | waitError (e : String)
  | exited (status : Int) (stderr : String)

/-- Embedding of an `anyhow::Error`: the outermost message (which is all
that the `Display` formatting `{}` renders) together with the chain of
underlying source messages, outermost first. -/
structure AnyhowError where
  msg : String
  chain : List String
deriving DecidableEq

/-- A fresh error, as built by the `anyhow!` macro. -/
def anyhowNew (m : String) : AnyhowError := { msg := m, chain := [] }

/-- Embedding of `with_context`: the context message becomes the new
outermost (displayed) message and the previous error joins the chain. -/
def AnyhowError.withContext (e : AnyhowError) (c : String) : AnyhowError :=
  { msg := c, chain := e.msg :: e.chain }

/-- Display of a Rust `ExitStatus` (Unix, exited case). -/
def statusDisplay (s : Int) : String := "exit status: " ++ toString s

/-- The environment of runtime oracles: the outcome of sending a text to a
channel (an error message when the send fails), recursive directory
creation, running a subprocess, and leaving a guild. -/
structure Env where
  sendResult : Nat → String → Option String
  create_dir_all : String → Except String Unit
  run : Cmd → RunResult
  leaveResult : Nat → Option String

/-- The yt-dlp command line built in `download_url_with_cookies`:
`yt-dlp <url> -P <output_dir> [--cookies <path>]`, stdout to null,
stderr piped. -/
def ytCmd (url output_dir : String) (cookies_path : Option String) : Cmd :=
  { program := "yt-dlp"
    args := [url, "-P", output_dir] ++
      (match cookies_path with
       | some c => ["--cookies", c]
       | none => [])
    stdout_null := true
    stderr_piped := true }

/-- Embedding of `download_url_with_cookies`.  The first component records
the command whose spawn was attempted (`none` when directory creation
already failed), the second the `anyhow::Result<()>` of the function:
directory-creation and spawn/wait failures are wrapped with their context
messages, a nonzero exit becomes a fresh error combining the exit status
with the trimmed captured standard error, and a zero exit is `Ok`. -/
def download_url_with_cookies (env : Env) (url output_dir : String)
    (cookies_path : Option String) : Option Cmd × Except AnyhowError Unit :=
  match env.create_dir_all output_dir with
  | .error e =>
      (none, .error ((anyhowNew e).withContext
        ("Failed to create output directory: " ++ output_dir)))
  | .ok _ =>
    let cmd := ytCmd url output_dir cookies_path
    match env.run cmd with
    | .spawnError e =>
        (some cmd, .error ((anyhowNew e).withContext "Failed to spawn yt-dlp process"))
    | .waitError e =>
        (some cmd, .error ((anyhowNew e).withContext "Failed to wait for yt-dlp process"))
    | .exited status stderr =>
        if status = 0 then (some cmd, .ok ())
        else (some cmd, .error (anyhowNew
          ("yt-dlp failed with status: " ++ statusDisplay status ++
           "\nError output: " ++ stderr.trim)))

/-! ### Effects -/

/-- An observable effect of the handlers: a `channel.say` attempt, a log
line, the spawn of a download task, the run of a subprocess, or a
guild-leave call. -/
inductive Event where
  | send (channel : Nat) (text : String)
  | log (text : String)
  | spawn (req : DownloadRequest)
  | run (cmd : Cmd)
  | leave (guild : Nat)
deriving DecidableEq

/-- Predicate for send events. -/
def isSendEvent : Event → Bool
  | .send _ _ => true
  | _ => false

/-- Predicate for guild-leave events. -/
def isLeaveEvent : Event → Bool
  | .leave _ => true
  | _ => false

/-! ### The spawned download task and the message handler -/

/-- The `tokio::spawn`ed block of `Handler::message`: runs
`download_url_with_cookies` and sends exactly one follow-up reply, either
`Downloaded: <url>` (with literal angle brackets) or
`Failed to download <url>: <diagnostic>`, where the diagnostic is the
`Display` rendering of the error. -/
def downloadTask (env : Env) (req : DownloadRequest) : List Event :=
  match download_url_with_cookies env req.url req.output_dir req.cookies_path with
  | (invoked, res) =>
    (match invoked with
     | some cmd => [Event.run cmd]
     | none => []) ++
    [match res with
     | .ok _ => Event.send req.channel ("Downloaded: <" ++ req.url ++ ">")
     | .error e => Event.send req.channel ("Failed to download " ++ req.url ++ ": " ++ e.msg)]

/-- The three early returns of `Handler::message`: drop the message when
the author is a bot, when it carries a guild identifier that is not
allowed, or when a single allowed channel is configured and the channel
differs. -/
def Handler.deniesMessage (h : Handler) (msg : Message) : Bool :=
  if msg.author_bot then true
  else if (match msg.guild_id with
           | some gid => !(h.is_allowed_guild gid)
           | none => false) then true
  else if (match h.allowed_channel with
           | some c => decide (msg.channel_id ≠ c)
           | none => false) then true
  else false

/-- Embedding of `Handler::message`: after the early returns, the broad
scan plus strict check route the message.  No or an invalid URL yields the
single `Invalid URL.` reply; a valid URL yields the acknowledgment send
(whose failure is only logged), then the spawn of the download task. -/
def Handler.message (h : Handler) (env : Env) (msg : Message) : List Event :=
  if h.deniesMessage msg then []
  else
    match urlMatcher msg.content with
    | .valid u =>
        Event.send msg.channel_id "OK! I will process that." ::
        ((match env.sendResult msg.channel_id "OK! I will process that." with
          | some e => [Event.log ("Failed to send acknowledgment: " ++ e)]
          | none => []) ++
         [Event.spawn { url := u, output_dir := h.output_dir,
                        cookies_path := h.cookies_path, channel := msg.channel_id }])
    | _ => [Event.send msg.channel_id "Invalid URL."]

/-- Expansion of a spawn event into the trace of the spawned task; every
other event stands for itself. -/
def spawnExpand (env : Env) : Event → List Event
  | .spawn req => downloadTask env req
  | e => [e]

/-- The message handler together with the download tasks it spawned: every
spawn event is replaced by the trace of its task. -/
def handledTrace (h : Handler) (env : Env) (msg : Message) : List Event :=
  (h.message env msg).flatMap (spawnExpand env)

/-- Embedding of `Handler::ready`: log the connection, and when a guild
allow-list is configured, walk the joined guilds and leave (and log) every
guild not on the list; a failed leave is logged and the loop continues. -/
def Handler.ready (h : Handler) (env : Env) (userName : String)
    (guilds : List Nat) : List Event :=
  Event.log ("Connected as " ++ userName) ::
  (match h.allowed_guilds with
   | some allowed =>
     guilds.flatMap fun g =>
       if !(allowed.contains g) then
         Event.log ("Leaving unauthorized guild: " ++ toString g) ::
         Event.leave g ::
         (match env.leaveResult g with
          | some e => [Event.log ("Failed to leave guild " ++ toString g ++ ": " ++ e)]
          | none => [])
       else []
   | none => [])

/-! ### Spec-side predicates -/

/-- The shape described by the spec for the strict check: scheme `http` or
`https` with `://`, a host of word characters, hyphens and dots containing
at least one dot and ending in a top-level label of two or more alphabetic
characters, optionally followed by a `/` path of non-whitespace. -/
def ValidUrlShape (s : String) : Prop :=
  ∃ sch h t p,
    (sch = "http://".data ∨ sch = "https://".data) ∧
    s.data = sch ++ (h ++ '.' :: (t ++ p)) ∧
    h ≠ [] ∧ (∀ c ∈ h, isHostChar c = true) ∧
    2 ≤ t.length ∧ (∀ c ∈ t, c.isAlpha = true) ∧
    (p = [] ∨ ∃ q, p = '/' :: q ∧ ∀ c ∈ q, nonWs c = true)

/-- Whether an `http://` or `https://` scheme begins at position `i`. -/
def schemeAtB (l : List Char) (i : Nat) : Bool :=
  decide ((l.drop i).take 7 = "http://".data) ||
  decide ((l.drop i).take 8 = "https://".data)

/-- Whether `pat` occurs as a contiguous subsequence of `l`. -/
def containsSeq (pat : List Char) : List Char → Bool
  | [] => decide (pat = [])
  | c :: cs => decide ((c :: cs).take pat.length = pat) || containsSeq pat cs

/-! ### List helper lemmas -/

/-- When every element of `a` satisfies `p` and the head of `b` does not,
`takeWhile p` on the concatenation returns exactly `a`. -/
theorem takeWhile_append_all (p : Char → Bool) (a b : List Char)
    (ha : ∀ c ∈ a, p c = true) (hb : ∀ c, b.head? = some c → p c = false) :
    (a ++ b).takeWhile p = a := by
  induction a with
  | nil =>
    simp only [List.nil_append]
    cases b with
    | nil => rfl
    | cons c cs =>
      have := hb c rfl
      simp [List.takeWhile_cons, this]
  | cons c cs ih =>
    have hc := ha c (by simp)
    have ih2 := ih fun d hd => ha d (by simp [hd])
    simp [List.takeWhile_cons, hc, ih2]

/-- Companion of `takeWhile_append_all` for `dropWhile`. -/
theorem dropWhile_append_all (p : Char → Bool) (a b : List Char)
    (ha : ∀ c ∈ a, p c = true) (hb : ∀ c, b.head? = some c → p c = false) :
    (a ++ b).dropWhile p = b := by
  induction a with
  | nil =>
    simp only [List.nil_append]
    cases b with
    | nil => rfl
    | cons c cs =>
      have := hb c rfl
      simp [List.dropWhile_cons, this]
  | cons c cs ih =>
    have hc := ha c (by simp)
    simp only [List.cons_append, List.dropWhile_cons, hc]
    exact ih fun d hd => ha d (by simp [hd])

/-- The head of `dropWhile p l`, when it exists, refutes `p`. -/
theorem head?_dropWhile_false (p : Char → Bool) (l : List Char) :
    ∀ c, (l.dropWhile p).head? = some c → p c = false := by
  induction l with
  | nil => intro c hc; simp at hc
  | cons x xs ih =>
    intro c hc
    by_cases hx : p x = true
    · rw [List.dropWhile_cons, if_pos hx] at hc
      exact ih c hc
    · rw [List.dropWhile_cons, if_neg hx] at hc
      simp only [List.head?_cons, Option.some.injEq] at hc
      subst hc
      simpa using hx

/-- Elements of `takeWhile p l` satisfy `p`. -/
theorem mem_takeWhile_sat (p : Char → Bool) (l : List Char) :
    ∀ c ∈ l.takeWhile p, p c = true :=
  fun _ hc => List.mem_takeWhile_imp hc

/-- Semantics of `containsSeq`: a Boolean test for infix occurrence. -/
theorem containsSeq_iff (pat l : List Char) :
    containsSeq pat l = true ↔ ∃ pre post, l = pre ++ pat ++ post := by
  induction l with
  | nil =>
    simp only [containsSeq, decide_eq_true_eq]
    constructor
    · rintro rfl; exact ⟨[], [], rfl⟩
    · rintro ⟨pre, post, h⟩
      exact (List.append_eq_nil.mp (List.append_eq_nil.mp h.symm).1).2
  | cons c cs ih =>
    simp only [containsSeq, Bool.or_eq_true, decide_eq_true_eq, ih]
    constructor
    · rintro (htake | ⟨pre, post, rfl⟩)
      · refine ⟨[], (c :: cs).drop pat.length, ?_⟩
        simp only [List.nil_append]
        conv_lhs => rw [← List.take_append_drop pat.length (c :: cs)]
        rw [htake]
      · exact ⟨c :: pre, post, rfl⟩
    · rintro ⟨pre, post, hsplit⟩
      cases pre with
      | nil =>
        left
        simp only [List.nil_append] at hsplit
        rw [hsplit]
        exact List.take_left pat post
      | cons d ds =>
        right
        simp only [List.cons_append, List.cons.injEq] at hsplit
        exact ⟨ds, post, hsplit.2⟩

/-! ### Lemmas about the scanners -/

/-- A successful scheme split decomposes the input and identifies the
scheme. -/
theorem schemeSplit_sound (l sch rest : List Char)
    (h : schemeSplit l = some (sch, rest)) :
    l = sch ++ rest ∧ (sch = "http://".data ∨ sch = "https://".data) := by
  unfold schemeSplit at h
  split_ifs at h with h8 h7
  · rw [Option.some.injEq, Prod.mk.injEq] at h
    obtain ⟨hsch, hrest⟩ := h
    subst hsch
    subst hrest
    refine ⟨?_, Or.inr rfl⟩
    conv_lhs => rw [← List.take_append_drop 8 l]
    rw [h8]
  · rw [Option.some.injEq, Prod.mk.injEq] at h
    obtain ⟨hsch, hrest⟩ := h
    subst hsch
    subst hrest
    refine ⟨?_, Or.inl rfl⟩
    conv_lhs => rw [← List.take_append_drop 7 l]
    rw [h7]

/-- Scheme split on a text starting with `https://`. -/
theorem schemeSplit_https (r : List Char) :
    schemeSplit ("https://".data ++ r) = some ("https://".data, r) := by
  have h8 : ("https://".data ++ r).take 8 = "https://".data := List.take_left' rfl
  have hd : ("https://".data ++ r).drop 8 = r := List.drop_left' rfl
  unfold schemeSplit
  rw [if_pos h8, hd]

/-- Scheme split on a text starting with `http://`. -/
theorem schemeSplit_http (r : List Char) :
    schemeSplit ("http://".data ++ r) = some ("http://".data, r) := by
  have hne : ("http://".data ++ r).take 8 ≠ "https://".data := by
    intro heq
    rw [show "http://".data = ['h','t','t','p',':','/','/'] from rfl] at heq
    rw [show (8 : Nat) = List.length ['h','t','t','p',':','/','/'] + 1 from rfl,
      List.take_append] at heq
    cases r with
    | nil => simp at heq
    | cons a as => simp [List.take_succ_cons] at heq
  have h7 : ("http://".data ++ r).take 7 = "http://".data := List.take_left' rfl
  have hd : ("http://".data ++ r).drop 7 = r := List.drop_left' rfl
  unfold schemeSplit
  rw [if_neg hne, if_pos h7, hd]

/-- An empty list has no scheme. -/
theorem schemeSplit_nil : schemeSplit [] = none := by decide

/-- A list without a dot yields no last-dot split, and conversely. -/
theorem lastDotSplit_eq_none (l : List Char) :
    lastDotSplit l = none ↔ '.' ∉ l := by
  induction l with
  | nil => simp [lastDotSplit]
  | cons c cs ih =>
    unfold lastDotSplit
    cases hcs : lastDotSplit cs with
    | some pr =>
      have hdot : '.' ∈ cs := by
        by_contra hno
        rw [ih.mpr hno] at hcs
        exact Option.noConfusion hcs
      simp [hdot]
    | none =>
      have hno : '.' ∉ cs := ih.mp hcs
      by_cases hc : c = '.'
      · subst hc; simp
      · simp only [if_neg hc, List.mem_cons, not_or, true_iff]
        exact ⟨fun hh => hc hh.symm, hno⟩

/-- A successful last-dot split decomposes the list at a dot with no dot
after it. -/
theorem lastDotSplit_sound : ∀ (l h t : List Char),
    lastDotSplit l = some (h, t) → l = h ++ '.' :: t ∧ '.' ∉ t := by
  intro l
  induction l with
  | nil => intro h t hl; simp [lastDotSplit] at hl
  | cons c cs ih =>
    intro h t hl
    unfold lastDotSplit at hl
    cases hcs : lastDotSplit cs with
    | some pr =>
      obtain ⟨h', t'⟩ := pr
      rw [hcs] at hl
      simp only [Option.some.injEq, Prod.mk.injEq] at hl
      obtain ⟨hdec, hnotin⟩ := ih h' t' hcs
      rw [← hl.1, ← hl.2, hdec]
      exact ⟨rfl, hnotin⟩
    | none =>
      rw [hcs] at hl
      by_cases hc : c = '.'
      · rw [if_pos hc] at hl
        simp only [Option.some.injEq, Prod.mk.injEq] at hl
        subst hc
        rw [← hl.1, ← hl.2]
        exact ⟨rfl, (lastDotSplit_eq_none cs).mp hcs⟩
      · rw [if_neg hc] at hl
        exact Option.noConfusion hl

/-- Conversely, a decomposition at a final dot is found by
`lastDotSplit`. -/
theorem lastDotSplit_complete (h t : List Char) (hnd : '.' ∉ t) :
    lastDotSplit (h ++ '.' :: t) = some (h, t) := by
  induction h with
  | nil =>
    simp only [List.nil_append]
    unfold lastDotSplit
    rw [(lastDotSplit_eq_none t).mpr hnd]
    simp
  | cons c cs ih =>
    simp only [List.cons_append]
    unfold lastDotSplit
    rw [ih]

/-- Structure of a successful anchored match of the broad regex. -/
theorem matchUrlAt_sound (l m : List Char) (h : matchUrlAt l = some m) :
    ∃ sch rest, schemeSplit l = some (sch, rest) ∧
      m = sch ++ rest.takeWhile nonWs ∧ rest.takeWhile nonWs ≠ [] := by
  unfold matchUrlAt at h
  cases hs : schemeSplit l with
  | none => rw [hs] at h; exact Option.noConfusion h
  | some pr =>
    obtain ⟨sch, rest⟩ := pr
    rw [hs] at h
    simp only at h
    by_cases hb : rest.takeWhile nonWs = []
    · rw [if_pos hb] at h; exact Option.noConfusion h
    · rw [if_neg hb] at h
      simp only [Option.some.injEq] at h
      exact ⟨sch, rest, rfl, h.symm, hb⟩

/-- A successful scheme split at the head makes position `0` a scheme
position. -/
theorem schemeAtB_zero_of_schemeSplit (l sch rest : List Char)
    (h : schemeSplit l = some (sch, rest)) : schemeAtB l 0 = true := by
  obtain ⟨hl, hsch⟩ := schemeSplit_sound l sch rest h
  unfold schemeAtB
  rw [List.drop_zero]
  rcases hsch with h7 | h8
  · subst h7
    have h7t : ("http://".data ++ rest).take 7 = "http://".data := List.take_left' rfl
    rw [hl]
    simp [h7t]
  · subst h8
    have h8t : ("https://".data ++ rest).take 8 = "https://".data := List.take_left' rfl
    rw [hl]
    simp [h8t]

/-- `findUrl` steps over a position with no anchored match. -/
theorem findUrl_cons_none (c : Char) (cs : List Char)
    (h : matchUrlAt (c :: cs) = none) : findUrl (c :: cs) = findUrl cs := by
  simp [findUrl, h]

/-- `findUrl` returns an anchored match at the head. -/
theorem findUrl_cons_some (c : Char) (cs m : List Char)
    (h : matchUrlAt (c :: cs) = some m) : findUrl (c :: cs) = some m := by
  simp [findUrl, h]

/-- Greediness of the broad scan: the found match is a segment of the text
whose following character, if any, is whitespace. -/
theorem findUrl_decomp : ∀ (t m : List Char), findUrl t = some m →
    ∃ pre post, t = pre ++ m ++ post ∧
      ∀ c, post.head? = some c → c.isWhitespace = true := by
  intro t
  induction t with
  | nil => intro m h; exact Option.noConfusion h
  | cons c cs ih =>
    intro m h
    cases hm : matchUrlAt (c :: cs) with
    | some m' =>
      rw [findUrl_cons_some c cs m' hm] at h
      simp only [Option.some.injEq] at h
      subst h
      obtain ⟨sch, rest, hs, hmeq, -⟩ := matchUrlAt_sound _ _ hm
      obtain ⟨hl, -⟩ := schemeSplit_sound _ _ _ hs
      refine ⟨[], rest.dropWhile nonWs, ?_, ?_⟩
      · rw [List.nil_append, hmeq, List.append_assoc,
          List.takeWhile_append_dropWhile]
        exact hl
      · intro d hd
        have := head?_dropWhile_false nonWs rest d hd
        simpa [nonWs] using this
    | none =>
      rw [findUrl_cons_none c cs hm] at h
      obtain ⟨pre, post, hsp, hw⟩ := ih m h
      exact ⟨c :: pre, post, by simp [hsp], hw⟩

/-- When no scheme begins inside the leading segment, the leftmost match is
the anchored match just after it. -/
theorem findUrl_prefix_clear : ∀ (pre rest m : List Char),
    (∀ i, i < pre.length → schemeAtB (pre ++ rest) i = false) →
    matchUrlAt rest = some m → findUrl (pre ++ rest) = some m := by
  intro pre
  induction pre with
  | nil =>
    intro rest m _ hm
    cases rest with
    | nil => rw [matchUrlAt, schemeSplit_nil] at hm; exact Option.noConfusion hm
    | cons c cs => simpa [List.nil_append] using findUrl_cons_some c cs m hm
  | cons c cs ih =>
    intro rest m h1 hm
    have h0 : schemeAtB (c :: (cs ++ rest)) 0 = false := by
      simpa using h1 0 (by simp)
    have hmu : matchUrlAt (c :: (cs ++ rest)) = none := by
      cases hmu : matchUrlAt (c :: (cs ++ rest)) with
      | none => rfl
      | some mm =>
        obtain ⟨sch, r2, hs, -, -⟩ := matchUrlAt_sound _ _ hmu
        have htrue := schemeAtB_zero_of_schemeSplit _ _ _ hs
        rw [h0] at htrue
        exact Bool.noConfusion htrue
    rw [List.cons_append, findUrl_cons_none _ _ hmu]
    refine ih rest m ?_ hm
    intro i hi
    have := h1 (i + 1) (by simpa using Nat.succ_lt_succ hi)
    simpa [schemeAtB, List.drop_succ_cons] using this

/-! ### Equivalence of the strict check with the spec shape -/

/-- Soundness half: an accepted string has the spec shape. -/
theorem is_valid_url_shape (s : String) (h : is_valid_url s = true) :
    ValidUrlShape s := by
  unfold is_valid_url at h
  cases hs : schemeSplit s.data with
  | none => rw [hs] at h; exact Bool.noConfusion h
  | some pr =>
    obtain ⟨sch, rest⟩ := pr
    rw [hs] at h
    simp only [Bool.and_eq_true] at h
    obtain ⟨hhost, htail⟩ := h
    cases hld : lastDotSplit (rest.takeWhile isHostChar) with
    | none => rw [hld] at hhost; exact Bool.noConfusion hhost
    | some pr2 =>
      obtain ⟨hh, tt⟩ := pr2
      rw [hld] at hhost
      simp only [Bool.and_eq_true, decide_eq_true_eq] at hhost
      obtain ⟨⟨hne, hlen⟩, halpha⟩ := hhost
      obtain ⟨hdec, -⟩ := lastDotSplit_sound _ _ _ hld
      obtain ⟨hrl, hscheme⟩ := schemeSplit_sound _ _ _ hs
      refine ⟨sch, hh, tt, rest.dropWhile isHostChar, hscheme, ?_, hne, ?_, hlen,
        List.all_eq_true.mp halpha, ?_⟩
      · rw [hrl]
        conv_lhs => rw [← List.takeWhile_append_dropWhile (p := isHostChar) (l := rest)]
        rw [hdec]
        simp [List.append_assoc]
      · intro c hc
        exact mem_takeWhile_sat isHostChar rest c (hdec ▸ List.mem_append_left _ hc)
      · cases hdw : rest.dropWhile isHostChar with
        | nil => exact Or.inl rfl
        | cons d q =>
          rw [hdw] at htail
          simp only [Bool.and_eq_true, decide_eq_true_eq] at htail
          obtain ⟨rfl, hq⟩ := htail
          exact Or.inr ⟨q, rfl, List.all_eq_true.mp hq⟩

/-- Completeness half: a string of the spec shape is accepted. -/
theorem shape_is_valid_url (s : String) (h : ValidUrlShape s) :
    is_valid_url s = true := by
  obtain ⟨sch, hh, tt, p, hscheme, hdata, hne, hhost, hlen, halpha, hp⟩ := h
  have hrest : schemeSplit s.data = some (sch, hh ++ '.' :: (tt ++ p)) := by
    rcases hscheme with h7 | h8
    · subst h7; rw [hdata]; exact schemeSplit_http _
    · subst h8; rw [hdata]; exact schemeSplit_https _
  have hall : ∀ c ∈ hh ++ '.' :: tt, isHostChar c = true := by
    intro c hc
    rcases List.mem_append.mp hc with hc | hc
    · exact hhost c hc
    · rcases List.mem_cons.mp hc with rfl | hc
      · decide
      · have := halpha c hc
        simp [isHostChar, isWordChar, this]
  have hphead : ∀ c, p.head? = some c → isHostChar c = false := by
    rcases hp with rfl | ⟨q, rfl, -⟩
    · intro c hc; exact Option.noConfusion hc
    · intro c hc
      simp only [List.head?_cons, Option.some.injEq] at hc
      subst hc
      decide
  have hassoc : hh ++ '.' :: (tt ++ p) = (hh ++ '.' :: tt) ++ p := by
    simp [List.append_assoc]
  have htw : (hh ++ '.' :: (tt ++ p)).takeWhile isHostChar = hh ++ '.' :: tt := by
    rw [hassoc]; exact takeWhile_append_all _ _ _ hall hphead
  have hdw : (hh ++ '.' :: (tt ++ p)).dropWhile isHostChar = p := by
    rw [hassoc]; exact dropWhile_append_all _ _ _ hall hphead
  have hnd : '.' ∉ tt := fun hmem => absurd (halpha '.' hmem) (by decide)
  have hld : lastDotSplit (hh ++ '.' :: tt) = some (hh, tt) :=
    lastDotSplit_complete _ _ hnd
  unfold is_valid_url
  rw [hrest]
  simp only [htw, hdw, hld]
  rcases hp with rfl | ⟨q, rfl, hq⟩
  · simp [hne, hlen, List.all_eq_true.mpr halpha]
  · simp [hne, hlen, List.all_eq_true.mpr halpha, List.all_eq_true.mpr hq]

/-! ### Concrete fixtures used by the witnesses -/

/-- A handler with a guild allow-list of `[10, 20]`, allowed channel `5`,
output directory `/out` and no cookies file. -/
def hW : Handler :=
  { output_dir := "/out", allowed_guilds := some [10, 20],
    allowed_channel := some 5, cookies_path := none }

/-- A benign environment: all sends succeed, directory creation succeeds,
every process exits cleanly, every guild leave succeeds. -/
def envW : Env :=
  { sendResult := fun _ _ => none, create_dir_all := fun _ => .ok (),
    run := fun _ => .exited 0 "", leaveResult := fun _ => none }

/-- An allowed message carrying a valid URL. -/
def msgW : Message :=
  { author_bot := false, guild_id := some 20, channel_id := 5,
    content := "check http://example.com/v" }

/-! ### Claim C1 -/

/-- C1: the Authorization Filter is a pure decision function; a message is
denied exactly when its author is a bot, or a guild allow-list is
configured and the message carries a guild identifier outside the list, or
a single allowed channel is configured and the channel differs.  Direct
messages (no guild identifier) are never denied by the guild check, and a
message passing all three checks is allowed. -/
theorem claim_C1_authorization_filter (h : Handler) (msg : Message) :
    h.deniesMessage msg = true ↔
      (msg.author_bot = true ∨
       (∃ ids gid, h.allowed_guilds = some ids ∧ msg.guild_id = some gid ∧ gid ∉ ids) ∨
       (∃ ch, h.allowed_channel = some ch ∧ msg.channel_id ≠ ch)) := by
  rcases msg with ⟨bot, gid, ch, content⟩
  simp only [Handler.deniesMessage, Handler.is_allowed_guild]
  cases bot <;> rcases gid with _ | g <;>
    rcases hg : h.allowed_guilds with _ | ids <;>
      rcases hc : h.allowed_channel with _ | c <;>
        simp [hg, hc, List.elem_iff]

/-- A message from guild 30, outside the allow-list of `hW`. -/
def msgOutsideGuild : Message :=
  { author_bot := false, guild_id := some 30, channel_id := 5, content := "x" }

/-- Witness for C1: a message from guild 30, outside the allow-list
`[10, 20]`, is denied. -/
theorem claim_C1_witness : hW.deniesMessage msgOutsideGuild = true :=
  (claim_C1_authorization_filter hW msgOutsideGuild).mpr
    (Or.inr (Or.inl ⟨[10, 20], 30, rfl, rfl, by decide⟩))

/-! ### Claim C5 -/

/-- C5 counterexample: the text `https://good.example.com/path7` contains
the substring `https://good.example.com/path`, yet the URL Matcher does
not return Valid with that substring (the greedy scan absorbs the final
character). -/
theorem claim_C5_counterexample :
    (∃ pre post, ("https://good.example.com/path7").data =
        pre ++ ("https://good.example.com/path").data ++ post) ∧
    urlMatcher "https://good.example.com/path7" ≠
      MatchResult.valid "https://good.example.com/path" := by
  exact ⟨⟨[], ['7'], by decide⟩, by decide⟩

/-- C5 (amended): if `https://good.example.com/path` occurs in the text,
no `http://` or `https://` scheme begins at any earlier position, and the
occurrence is followed by whitespace or the end of the text, then the URL
Matcher returns Valid carrying exactly that substring. -/
theorem claim_C5_first_url (pre post : List Char)
    (h1 : ∀ i, i < pre.length →
      schemeAtB (pre ++ ("https://good.example.com/path".data ++ post)) i = false)
    (h2 : ∀ c, post.head? = some c → c.isWhitespace = true) :
    urlMatcher (String.mk (pre ++ ("https://good.example.com/path".data ++ post))) =
      MatchResult.valid "https://good.example.com/path" := by
  have hbody : ∀ c ∈ "good.example.com/path".data, nonWs c = true := by decide
  have htw : ("good.example.com/path".data ++ post).takeWhile nonWs
      = "good.example.com/path".data :=
    takeWhile_append_all _ _ _ hbody (fun c hc => by
      have := h2 c hc
      simp [nonWs, this])
  have hm : matchUrlAt ("https://good.example.com/path".data ++ post)
      = some "https://good.example.com/path".data := by
    have hlit : "https://good.example.com/path".data
        = "https://".data ++ "good.example.com/path".data := by decide
    have hsp : schemeSplit ("https://good.example.com/path".data ++ post)
        = some ("https://".data, "good.example.com/path".data ++ post) := by
      rw [hlit, List.append_assoc]
      exact schemeSplit_https _
    unfold matchUrlAt
    rw [hsp]
    simp only [htw]
    rw [if_neg (by decide)]
    decide
  have hf : findUrl (pre ++ ("https://good.example.com/path".data ++ post))
      = some "https://good.example.com/path".data :=
    findUrl_prefix_clear pre _ _ h1 hm
  unfold urlMatcher
  rw [show (String.mk (pre ++ ("https://good.example.com/path".data ++ post))).data
      = pre ++ ("https://good.example.com/path".data ++ post) from rfl, hf]
  decide

/-- Witness for C5: the amended statement applied to the text
`see https://good.example.com/path ok`. -/
theorem claim_C5_witness :
    urlMatcher (String.mk ("see ".data ++
        ("https://good.example.com/path".data ++ " ok".data))) =
      MatchResult.valid "https://good.example.com/path" :=
  claim_C5_first_url "see ".data " ok".data (by decide) (by decide)

/-! ### Claim C6 -/

/-- C6: the strict shape check accepts a candidate exactly when it is a
scheme `http` or `https`, then `://`, then a host of word characters,
hyphens and dots containing a dot and ending in an alphabetic top-level
label of length at least two, optionally followed by a `/` path of
non-whitespace; in particular a text whose broad scan yields
`http://bad_host` is classified Invalid. -/
theorem claim_C6_strict_check (s text : String) :
    (is_valid_url s = true ↔ ValidUrlShape s) ∧
    (findUrl text.data = some "http://bad_host".data →
      urlMatcher text = MatchResult.invalid) := by
  refine ⟨⟨is_valid_url_shape s, shape_is_valid_url s⟩, ?_⟩
  intro hf
  unfold urlMatcher
  rw [hf]
  decide

/-- Witness for C6: the text `see http://bad_host ok` is classified
Invalid. -/
theorem claim_C6_witness :
    urlMatcher "see http://bad_host ok" = MatchResult.invalid :=
  (claim_C6_strict_check "x" "see http://bad_host ok").2 (by decide)

/-! ### Claim C9 -/

/-- An allowed message whose text is a path-less URL followed by a comma. -/
def msgComma : Message :=
  { author_bot := false, guild_id := some 10, channel_id := 5,
    content := "http://example.com," }

/-- C9: the broad scan is greedy over non-whitespace — the character
following the found candidate, if any, is whitespace, so trailing
punctuation attached to a URL is part of the candidate.  A path-less URL
followed by punctuation is therefore Invalid (and answered with
`Invalid URL.`), while a URL with a path absorbs the punctuation into the
Valid URL that is passed verbatim as the first downloader argument. -/
theorem claim_C9_greedy_scan (t m : List Char) :
    (findUrl t = some m → ∃ pre post, t = pre ++ m ++ post ∧
        ∀ c, post.head? = some c → c.isWhitespace = true) ∧
    urlMatcher "http://example.com," = MatchResult.invalid ∧
    urlMatcher "http://example.com." = MatchResult.invalid ∧
    urlMatcher "see http://example.com/a, end" =
      MatchResult.valid "http://example.com/a," ∧
    (ytCmd "http://example.com/a," "/out" none).args =
      ["http://example.com/a,", "-P", "/out"] ∧
    handledTrace hW envW msgComma = [Event.send 5 "Invalid URL."] :=
  ⟨findUrl_decomp t m, by decide, by decide, by decide, by decide, by decide⟩

/-- Witness for C9: the greedy-boundary statement at a concrete text whose
URL is followed by a space. -/
theorem claim_C9_witness :
    ∃ pre post, "ab http://x.yz,q w".data =
        pre ++ "http://x.yz,q".data ++ post ∧
      ∀ c, post.head? = some c → c.isWhitespace = true :=
  (claim_C9_greedy_scan "ab http://x.yz,q w".data "http://x.yz,q".data).1 (by decide)

/-! ### Router and task structure lemmas -/

/-- Predicate for spawn events. -/
def isSpawnEvent : Event → Bool
  | .spawn _ => true
  | _ => false

/-- The download request that `Handler::message` hands to the spawned
task for a valid URL `u`. -/
def spawnedReq (h : Handler) (msg : Message) (u : String) : DownloadRequest :=
  { url := u, output_dir := h.output_dir, cookies_path := h.cookies_path,
    channel := msg.channel_id }

/-- The event list of the message handler for an allowed message with a
valid URL: the acknowledgment send first, then possibly a log of a failed
acknowledgment, then the spawn of the download task. -/
theorem message_valid (h : Handler) (env : Env) (msg : Message) (u : String)
    (hd : h.deniesMessage msg = false) (hu : urlMatcher msg.content = .valid u) :
    ∃ mid, h.message env msg =
        Event.send msg.channel_id "OK! I will process that." ::
          (mid ++ [Event.spawn (spawnedReq h msg u)]) ∧
        ∀ e ∈ mid, ∃ s, e = Event.log s := by
  rcases hsr : env.sendResult msg.channel_id "OK! I will process that." with _ | e
  · exact ⟨[], by simp [Handler.message, hd, hu, hsr, spawnedReq], by simp⟩
  · exact ⟨[Event.log ("Failed to send acknowledgment: " ++ e)],
      by simp [Handler.message, hd, hu, hsr, spawnedReq], by simp⟩

/-- The message handler itself never runs a subprocess. -/
theorem message_no_run (h : Handler) (env : Env) (msg : Message) :
    ∀ c, Event.run c ∉ h.message env msg := by
  intro c
  cases hd : h.deniesMessage msg
  · cases hu : urlMatcher msg.content <;>
      rcases hsr : env.sendResult msg.channel_id "OK! I will process that." with _ | e <;>
        simp [Handler.message, hd, hu, hsr]
  · simp [Handler.message, hd]

/-- The download task sends exactly one reply: the success notice on a
clean exit, otherwise the failure notice carrying the displayed error. -/
theorem downloadTask_sends (env : Env) (req : DownloadRequest) :
    (downloadTask env req).filter isSendEvent =
      [Event.send req.channel ("Downloaded: <" ++ req.url ++ ">")] ∨
    ∃ d, (downloadTask env req).filter isSendEvent =
      [Event.send req.channel ("Failed to download " ++ req.url ++ ": " ++ d)] := by
  rcases hcd : env.create_dir_all req.output_dir with e | u
  · right
    refine ⟨"Failed to create output directory: " ++ req.output_dir, ?_⟩
    simp [downloadTask, download_url_with_cookies, hcd, isSendEvent,
      AnyhowError.withContext, anyhowNew]
  · rcases hr : env.run (ytCmd req.url req.output_dir req.cookies_path) with e | e | ⟨st, serr⟩
    · right
      refine ⟨"Failed to spawn yt-dlp process", ?_⟩
      simp [downloadTask, download_url_with_cookies, hcd, hr, isSendEvent,
        AnyhowError.withContext, anyhowNew]
    · right
      refine ⟨"Failed to wait for yt-dlp process", ?_⟩
      simp [downloadTask, download_url_with_cookies, hcd, hr, isSendEvent,
        AnyhowError.withContext, anyhowNew]
    · by_cases hst : st = 0
      · left
        simp [downloadTask, download_url_with_cookies, hcd, hr, hst, isSendEvent]
      · right
        refine ⟨"yt-dlp failed with status: " ++ statusDisplay st ++
          "\nError output: " ++ serr.trim, ?_⟩
        simp [downloadTask, download_url_with_cookies, hcd, hr, hst,
          isSendEvent, anyhowNew]

/-- The download task result and its single send agree: an `Ok` result
yields the success notice, an error the failure notice. -/
theorem downloadTask_send_of_result (env : Env) (req : DownloadRequest) :
    ((download_url_with_cookies env req.url req.output_dir req.cookies_path).2 = .ok () →
      (downloadTask env req).filter isSendEvent =
        [Event.send req.channel ("Downloaded: <" ++ req.url ++ ">")]) ∧
    (∀ err, (download_url_with_cookies env req.url req.output_dir req.cookies_path).2 =
        .error err →
      (downloadTask env req).filter isSendEvent =
        [Event.send req.channel ("Failed to download " ++ req.url ++ ": " ++ err.msg)]) := by
  constructor
  · intro hok
    rcases hcd : env.create_dir_all req.output_dir with e | uu
    · rw [show (download_url_with_cookies env req.url req.output_dir req.cookies_path).2
          = .error ((anyhowNew e).withContext
            ("Failed to create output directory: " ++ req.output_dir)) from by
        simp [download_url_with_cookies, hcd]] at hok
      exact Except.noConfusion hok
    · rcases hr : env.run (ytCmd req.url req.output_dir req.cookies_path)
        with e | e | ⟨st, serr⟩
      · rw [show (download_url_with_cookies env req.url req.output_dir req.cookies_path).2
            = .error ((anyhowNew e).withContext "Failed to spawn yt-dlp process") from by
          simp [download_url_with_cookies, hcd, hr]] at hok
        exact Except.noConfusion hok
      · rw [show (download_url_with_cookies env req.url req.output_dir req.cookies_path).2
            = .error ((anyhowNew e).withContext "Failed to wait for yt-dlp process") from by
          simp [download_url_with_cookies, hcd, hr]] at hok
        exact Except.noConfusion hok
      · by_cases hst : st = 0
        · simp [downloadTask, download_url_with_cookies, hcd, hr, hst, isSendEvent]
        · rw [show (download_url_with_cookies env req.url req.output_dir
              req.cookies_path).2 = .error (anyhowNew
                ("yt-dlp failed with status: " ++ statusDisplay st ++
                 "\nError output: " ++ serr.trim)) from by
            simp [download_url_with_cookies, hcd, hr, hst]] at hok
          exact Except.noConfusion hok
  · intro err herr
    rcases hcd : env.create_dir_all req.output_dir with e | uu
    · simp only [downloadTask, download_url_with_cookies, hcd] at herr ⊢
      rw [Except.error.injEq] at herr
      simp [herr, isSendEvent]
    · rcases hr : env.run (ytCmd req.url req.output_dir req.cookies_path)
        with e | e | ⟨st, serr⟩
      · simp only [downloadTask, download_url_with_cookies, hcd, hr] at herr ⊢
        rw [Except.error.injEq] at herr
        simp [herr, isSendEvent]
      · simp only [downloadTask, download_url_with_cookies, hcd, hr] at herr ⊢
        rw [Except.error.injEq] at herr
        simp [herr, isSendEvent]
      · by_cases hst : st = 0
        · simp [download_url_with_cookies, hcd, hr, hst] at herr
        · simp only [downloadTask, download_url_with_cookies, hcd, hr] at herr ⊢
          rw [if_neg hst] at herr ⊢
          rw [Except.error.injEq] at herr
          simp [herr, isSendEvent]

/-- A list of log events expands to itself. -/
theorem flatMap_spawnExpand_logs (env : Env) (mid : List Event)
    (hm : ∀ e ∈ mid, ∃ s, e = Event.log s) :
    mid.flatMap (spawnExpand env) = mid := by
  induction mid with
  | nil => rfl
  | cons e es ih =>
    obtain ⟨s, rfl⟩ := hm e (by simp)
    rw [List.flatMap_cons, ih fun x hx => hm x (by simp [hx])]
    rfl

/-- A list of log events contains no send. -/
theorem filter_send_logs (mid : List Event)
    (hm : ∀ e ∈ mid, ∃ s, e = Event.log s) : mid.filter isSendEvent = [] := by
  rw [List.filter_eq_nil_iff]
  intro e he
  obtain ⟨s, rfl⟩ := hm e he
  simp [isSendEvent]

/-! ### Claim C2 -/

/-- C2: routing of replies.  A denied message produces no event at all; an
allowed message with no or an invalid URL produces exactly the single
`Invalid URL.` reply and runs no subprocess; an allowed message with a
valid URL produces exactly the acknowledgment send followed by exactly one
terminal send (success or failure), hence at most one of each. -/
theorem claim_C2_reply_routing (h : Handler) (env : Env) (msg : Message) :
    (h.deniesMessage msg = true → handledTrace h env msg = []) ∧
    (h.deniesMessage msg = false →
      ((urlMatcher msg.content = MatchResult.absent ∨
        urlMatcher msg.content = MatchResult.invalid) →
        handledTrace h env msg = [Event.send msg.channel_id "Invalid URL."] ∧
        ∀ c, Event.run c ∉ handledTrace h env msg) ∧
      (∀ u, urlMatcher msg.content = MatchResult.valid u →
        ∃ t, (handledTrace h env msg).filter isSendEvent =
            [Event.send msg.channel_id "OK! I will process that.",
             Event.send msg.channel_id t] ∧
          (t = "Downloaded: <" ++ u ++ ">" ∨
           ∃ d, t = "Failed to download " ++ u ++ ": " ++ d))) := by
  refine ⟨?_, ?_⟩
  · intro hd
    simp [handledTrace, Handler.message, hd]
  · intro hd
    refine ⟨?_, ?_⟩
    · intro hmi
      have hmsg : h.message env msg = [Event.send msg.channel_id "Invalid URL."] := by
        rcases hmi with hmi | hmi <;> simp [Handler.message, hd, hmi]
      refine ⟨?_, ?_⟩
      · simp [handledTrace, hmsg, spawnExpand]
      · intro c
        simp [handledTrace, hmsg, spawnExpand]
    · intro u hu
      obtain ⟨mid, hmsg, hmid⟩ := message_valid h env msg u hd hu
      have hexpand : handledTrace h env msg =
          Event.send msg.channel_id "OK! I will process that." ::
            (mid ++ downloadTask env (spawnedReq h msg u)) := by
        simp [handledTrace, hmsg, List.flatMap_cons, List.flatMap_append,
          flatMap_spawnExpand_logs env mid hmid, spawnExpand]
      have hfil : (handledTrace h env msg).filter isSendEvent =
          Event.send msg.channel_id "OK! I will process that." ::
            (downloadTask env (spawnedReq h msg u)).filter isSendEvent := by
        rw [hexpand]
        simp [List.filter_cons, List.filter_append, isSendEvent,
          filter_send_logs mid hmid]
      rcases downloadTask_sends env (spawnedReq h msg u) with hok | ⟨d, hfail⟩
      · refine ⟨"Downloaded: <" ++ u ++ ">", ?_, Or.inl rfl⟩
        rw [hfil, hok]
        rfl
      · refine ⟨"Failed to download " ++ u ++ ": " ++ d, ?_, Or.inr ⟨d, rfl⟩⟩
        rw [hfil, hfail]
        rfl

/-- Witness for C2: the valid-URL branch evaluated on the fixture message
in the benign environment. -/
theorem claim_C2_witness :
    ∃ t, (handledTrace hW envW msgW).filter isSendEvent =
        [Event.send msgW.channel_id "OK! I will process that.",
         Event.send msgW.channel_id t] ∧
      (t = "Downloaded: <" ++ "http://example.com/v" ++ ">" ∨
       ∃ d, t = "Failed to download " ++ "http://example.com/v" ++ ": " ++ d) :=
  ((claim_C2_reply_routing hW envW msgW).2 (by decide)).2
    "http://example.com/v" (by decide)

/-! ### Claim C7 -/

/-- C7: for a qualifying message the acknowledgment send is the first
event, strictly before the spawn of the download task, the handler itself
runs no subprocess, and the spawned task is the same whatever the
acknowledgment send outcome — a failed send is only logged and does not
abort dispatch. -/
theorem claim_C7_acknowledgment (h : Handler) (env env2 : Env) (msg : Message)
    (u : String) (hd : h.deniesMessage msg = false)
    (hu : urlMatcher msg.content = MatchResult.valid u) :
    (∃ mid, h.message env msg =
        Event.send msg.channel_id "OK! I will process that." ::
          (mid ++ [Event.spawn (spawnedReq h msg u)]) ∧
        ∀ e ∈ mid, ∃ s, e = Event.log s) ∧
    (∀ c, Event.run c ∉ h.message env msg) ∧
    (h.message env msg).filter isSpawnEvent =
      (h.message env2 msg).filter isSpawnEvent := by
  refine ⟨message_valid h env msg u hd hu, message_no_run h env msg, ?_⟩
  obtain ⟨mid, hmsg, hmid⟩ := message_valid h env msg u hd hu
  obtain ⟨mid2, hmsg2, hmid2⟩ := message_valid h env2 msg u hd hu
  have hlogfil : ∀ (m : List Event), (∀ e ∈ m, ∃ s, e = Event.log s) →
      m.filter isSpawnEvent = [] := by
    intro m hm
    rw [List.filter_eq_nil_iff]
    intro e he
    obtain ⟨s, rfl⟩ := hm e he
    simp [isSpawnEvent]
  rw [hmsg, hmsg2]
  simp [List.filter_cons, List.filter_append, isSpawnEvent, hlogfil mid hmid,
    hlogfil mid2 hmid2]

/-- An environment in which every send fails, directory creation succeeds
and the downloader exits nonzero. -/
def envFail : Env :=
  { sendResult := fun _ _ => some "http 500", create_dir_all := fun _ => .ok (),
    run := fun _ => .exited 1 "boom", leaveResult := fun _ => some "err" }

/-- Witness for C7: the fixture message handled in the failing-send
environment, compared against the benign one. -/
theorem claim_C7_witness :
    (∃ mid, hW.message envFail msgW =
        Event.send msgW.channel_id "OK! I will process that." ::
          (mid ++ [Event.spawn (spawnedReq hW msgW "http://example.com/v")]) ∧
        ∀ e ∈ mid, ∃ s, e = Event.log s) ∧
    (∀ c, Event.run c ∉ hW.message envFail msgW) ∧
    (hW.message envFail msgW).filter isSpawnEvent =
      (hW.message envW msgW).filter isSpawnEvent :=
  claim_C7_acknowledgment hW envFail envW msgW "http://example.com/v"
    (by decide) (by decide)

/-! ### Claim C3 -/

/-- C3: the Process Adapter runs `yt-dlp <url> -P <dir> [--cookies <path>]`
with the cookies flag exactly when a cookie path is supplied, stdout
discarded and stderr piped; once the directory exists, the result is `Ok`
exactly when the process exits with status zero, a nonzero exit yields a
failure combining the exit status with the trimmed captured stderr, and a
spawn failure is itself a failure value carrying the launch error in its
chain, not a propagated exception. -/
theorem claim_C3_process_adapter (env : Env) (url dir : String)
    (cookies : Option String) (hdir : env.create_dir_all dir = .ok ()) :
    (download_url_with_cookies env url dir cookies).1 =
      some (ytCmd url dir cookies) ∧
    (ytCmd url dir cookies).program = "yt-dlp" ∧
    (cookies = none → (ytCmd url dir cookies).args = [url, "-P", dir]) ∧
    (∀ c, cookies = some c →
      (ytCmd url dir cookies).args = [url, "-P", dir, "--cookies", c]) ∧
    (ytCmd url dir cookies).stdout_null = true ∧
    (ytCmd url dir cookies).stderr_piped = true ∧
    ((download_url_with_cookies env url dir cookies).2 = .ok () ↔
      ∃ stderr, env.run (ytCmd url dir cookies) = .exited 0 stderr) ∧
    (∀ st stderr, env.run (ytCmd url dir cookies) = .exited st stderr → st ≠ 0 →
      (download_url_with_cookies env url dir cookies).2 = .error (anyhowNew
        ("yt-dlp failed with status: " ++ statusDisplay st ++
         "\nError output: " ++ stderr.trim))) ∧
    (∀ e, env.run (ytCmd url dir cookies) = .spawnError e →
      (download_url_with_cookies env url dir cookies).2 =
        .error ((anyhowNew e).withContext "Failed to spawn yt-dlp process") ∧
      ((anyhowNew e).withContext "Failed to spawn yt-dlp process").chain = [e]) := by
  refine ⟨?_, rfl, ?_, ?_, rfl, rfl, ?_, ?_, ?_⟩
  · rcases hr : env.run (ytCmd url dir cookies) with e | e | ⟨st, serr⟩
    · simp [download_url_with_cookies, hdir, hr]
    · simp [download_url_with_cookies, hdir, hr]
    · by_cases hst : st = 0 <;> simp [download_url_with_cookies, hdir, hr, hst]
  · intro hc; subst hc; rfl
  · intro c hc; subst hc; rfl
  · rcases hr : env.run (ytCmd url dir cookies) with e | e | ⟨st, serr⟩
    · simp [download_url_with_cookies, hdir, hr]
    · simp [download_url_with_cookies, hdir, hr]
    · by_cases hst : st = 0
      · subst hst
        simp [download_url_with_cookies, hdir, hr]
      · simp [download_url_with_cookies, hdir, hr, hst]
  · intro st serr hr hst
    simp [download_url_with_cookies, hdir, hr, hst]
  · intro e hr
    refine ⟨?_, rfl⟩
    simp [download_url_with_cookies, hdir, hr]

/-- Witness for C3: the adapter evaluated in the benign environment with a
cookie file supplied. -/
theorem claim_C3_witness :
    (download_url_with_cookies envW "http://a.bc" "/out" (some "ck.txt")).1 =
      some (ytCmd "http://a.bc" "/out" (some "ck.txt")) ∧
    (ytCmd "http://a.bc" "/out" (some "ck.txt")).program = "yt-dlp" ∧
    (some "ck.txt" = none →
      (ytCmd "http://a.bc" "/out" (some "ck.txt")).args = ["http://a.bc", "-P", "/out"]) ∧
    (∀ c, some "ck.txt" = some c →
      (ytCmd "http://a.bc" "/out" (some "ck.txt")).args =
        ["http://a.bc", "-P", "/out", "--cookies", c]) ∧
    (ytCmd "http://a.bc" "/out" (some "ck.txt")).stdout_null = true ∧
    (ytCmd "http://a.bc" "/out" (some "ck.txt")).stderr_piped = true ∧
    ((download_url_with_cookies envW "http://a.bc" "/out" (some "ck.txt")).2 = .ok () ↔
      ∃ stderr, envW.run (ytCmd "http://a.bc" "/out" (some "ck.txt")) =
        .exited 0 stderr) ∧
    (∀ st stderr, envW.run (ytCmd "http://a.bc" "/out" (some "ck.txt")) =
        .exited st stderr → st ≠ 0 →
      (download_url_with_cookies envW "http://a.bc" "/out" (some "ck.txt")).2 =
        .error (anyhowNew ("yt-dlp failed with status: " ++ statusDisplay st ++
          "\nError output: " ++ stderr.trim))) ∧
    (∀ e, envW.run (ytCmd "http://a.bc" "/out" (some "ck.txt")) = .spawnError e →
      (download_url_with_cookies envW "http://a.bc" "/out" (some "ck.txt")).2 =
        .error ((anyhowNew e).withContext "Failed to spawn yt-dlp process") ∧
      ((anyhowNew e).withContext "Failed to spawn yt-dlp process").chain = [e]) :=
  claim_C3_process_adapter envW "http://a.bc" "/out" (some "ck.txt") rfl

/-! ### Claim C4 -/

/-- C4 (amended): the dispatched task creates the destination directory
first; a directory-creation failure is a terminal failure whose
user-visible diagnostic is the context message naming the directory, with
the underlying I/O error retained in the error chain (not rendered in the
reply), and no subprocess runs.  In every case the task sends exactly one
follow-up reply: the success notice `Downloaded: <url>` (literal angle
brackets) on `Ok`, otherwise `Failed to download <url>: <diagnostic>`. -/
theorem claim_C4_download_task (env : Env) (req : DownloadRequest) :
    (∀ e, env.create_dir_all req.output_dir = .error e →
      downloadTask env req = [Event.send req.channel
        ("Failed to download " ++ req.url ++ ": " ++
          ("Failed to create output directory: " ++ req.output_dir))] ∧
      (download_url_with_cookies env req.url req.output_dir req.cookies_path).2 =
        .error ((anyhowNew e).withContext
          ("Failed to create output directory: " ++ req.output_dir)) ∧
      ((anyhowNew e).withContext
        ("Failed to create output directory: " ++ req.output_dir)).chain = [e] ∧
      ∀ c, Event.run c ∉ downloadTask env req) ∧
    ((downloadTask env req).filter isSendEvent).length = 1 ∧
    ((download_url_with_cookies env req.url req.output_dir req.cookies_path).2 =
        .ok () →
      (downloadTask env req).filter isSendEvent =
        [Event.send req.channel ("Downloaded: <" ++ req.url ++ ">")]) ∧
    (∀ err, (download_url_with_cookies env req.url req.output_dir
        req.cookies_path).2 = .error err →
      (downloadTask env req).filter isSendEvent =
        [Event.send req.channel
          ("Failed to download " ++ req.url ++ ": " ++ err.msg)]) := by
  refine ⟨?_, ?_, (downloadTask_send_of_result env req).1,
    (downloadTask_send_of_result env req).2⟩
  · intro e he
    refine ⟨?_, ?_, rfl, ?_⟩
    · simp [downloadTask, download_url_with_cookies, he,
        AnyhowError.withContext, anyhowNew]
    · simp [download_url_with_cookies, he]
    · intro c
      simp [downloadTask, download_url_with_cookies, he]
  · rcases downloadTask_sends env req with hok | ⟨d, hf⟩
    · simp [hok]
    · simp [hf]

/-- An environment whose directory creation fails with a permission
error. -/
def envC4 : Env :=
  { sendResult := fun _ _ => none,
    create_dir_all := fun _ => .error "permission denied",
    run := fun _ => .exited 0 "", leaveResult := fun _ => none }

/-- The download request used by the C4 counterexample. -/
def reqC4 : DownloadRequest :=
  { url := "http://a.bc/x", output_dir := "/out", cookies_path := none,
    channel := 5 }

/-- C4 counterexample: when directory creation fails with
`permission denied`, the single follow-up reply renders only the context
message — the text of the underlying I/O error appears nowhere in the
diagnostic. -/
theorem claim_C4_counterexample :
    envC4.create_dir_all "/out" = .error "permission denied" ∧
    downloadTask envC4 reqC4 = [Event.send 5
      "Failed to download http://a.bc/x: Failed to create output directory: /out"] ∧
    ¬ ∃ pre post,
      ("Failed to download http://a.bc/x: Failed to create output directory: /out").data
        = pre ++ "permission denied".data ++ post := by
  refine ⟨rfl, by decide, ?_⟩
  intro hex
  have hcs := (containsSeq_iff "permission denied".data
    ("Failed to download http://a.bc/x: Failed to create output directory: /out").data).mpr hex
  rw [show containsSeq "permission denied".data
    ("Failed to download http://a.bc/x: Failed to create output directory: /out").data
      = false from by decide] at hcs
  exact Bool.noConfusion hcs

/-- Witness for C4: a clean run of the task sends exactly the success
notice. -/
theorem claim_C4_witness :
    (downloadTask envW reqC4).filter isSendEvent =
      [Event.send reqC4.channel ("Downloaded: <" ++ reqC4.url ++ ">")] :=
  (claim_C4_download_task envW reqC4).2.2.1 rfl

/-! ### Claim C8 -/

/-- C8: on the ready event with an allow-list configured, a leave call is
issued exactly for the joined guilds outside the list — never for a guild
on the list — and the issued leaves do not depend on whether individual
leave calls fail (a failure is only logged and the loop continues); with
no allow-list configured, no guild is left. -/
theorem claim_C8_ready_reconciliation (h : Handler) (env : Env) (name : String)
    (guilds : List Nat) :
    (∀ allowed, h.allowed_guilds = some allowed →
      (h.ready env name guilds).filter isLeaveEvent =
        (guilds.filter (fun g => !(allowed.contains g))).map Event.leave ∧
      (∀ g, Event.leave g ∈ h.ready env name guilds ↔
        (g ∈ guilds ∧ allowed.contains g = false))) ∧
    (h.allowed_guilds = none →
      (h.ready env name guilds).filter isLeaveEvent = []) := by
  refine ⟨?_, ?_⟩
  · intro allowed ha
    have hfe : (h.ready env name guilds).filter isLeaveEvent =
        (guilds.filter (fun g => !(allowed.contains g))).map Event.leave := by
      simp only [Handler.ready, ha, List.filter_cons]
      rw [if_neg (by simp [isLeaveEvent])]
      induction guilds with
      | nil => rfl
      | cons g gs ih =>
        rw [List.flatMap_cons, List.filter_append, ih, List.filter_cons]
        by_cases hg : g ∈ allowed
        · simp [hg]
        · rcases hlr : env.leaveResult g with _ | e <;>
            simp [hg, hlr, isLeaveEvent]
    refine ⟨hfe, ?_⟩
    intro g
    have hmem : Event.leave g ∈ h.ready env name guilds ↔
        Event.leave g ∈ (h.ready env name guilds).filter isLeaveEvent := by
      constructor
      · intro hg
        exact List.mem_filter.mpr ⟨hg, by simp [isLeaveEvent]⟩
      · intro hg
        exact (List.mem_filter.mp hg).1
    rw [hmem, hfe]
    simp [List.mem_map, List.mem_filter, Bool.not_eq_true']
  · intro hn
    simp [Handler.ready, hn, isLeaveEvent]

/-- Witness for C8: allow-list `[10, 20]`, joined guilds `[10, 30]` — the
leave calls are exactly for guild 30. -/
theorem claim_C8_witness :
    (hW.ready envW "bot" [10, 30]).filter isLeaveEvent = [Event.leave 30] := by
  have h := ((claim_C8_ready_reconciliation hW envW "bot" [10, 30]).1 [10, 20] rfl).1
  rw [h]
  decide
